import Mathlib

/-!
# Tracker of the distributed file storage system

A shallow embedding of `tracker.go` (the coordinator: node registry, chunk
placement on upload, reassembly on download, heartbeat sweep) and of the two
chunk handlers of `datanode.go`, followed by the properties of the
specification that were checked against it.

Modelling conventions.

* A Go `map[K]V` is an association list; `GoMap.get` reads the first binding of
  a key, `GoMap.set` overwrites it in place (or appends a new binding) and
  `GoMap.delete` drops every binding of the key.  The order in which a Go
  `range` loop visits a map is unspecified, so every loop over a map takes the
  visiting order as an explicit argument; a key of that order that is not (or
  no longer) bound is not visited.
* `time.Time` is a clock reading in nanoseconds (`Int`); a call `time.Since t`
  is `reading - t` for the clock reading taken at that call, so the sweep
  carries one reading for each entry it visits.
* Byte slices are `List UInt8`; Go `int` / `int64` counters are unbounded
  numbers (no counter of the program can reach `2^63`).
* `crypto/sha256` is a parameter `generateChunkID` of every definition that
  uses it.
* The HTTP exchange with a storage node is a parameter of type `Net W` over a
  state `W` of the storage fleet: the push request with its form fields, and
  the `http.Get` of the URL that `downloadChunkFromDataNode` builds.
* Log lines are collected in a list.
-/

namespace Tracker

/-- A byte slice. -/
abbrev Bytes := List UInt8

/-! ## Go maps -/

/-- A Go map as an association list. -/
abbrev GoMap (K V : Type) := List (K × V)

namespace GoMap

variable {K V : Type} [DecidableEq K]

/-- Map read `m[k]` with the comma-ok result. -/
def get (m : GoMap K V) (k : K) : Option V :=
  match m with
  | [] => none
  | (k', v) :: rest => if k' = k then some v else get rest k

/-- Map write `m[k] = v`. -/
def set (m : GoMap K V) (k : K) (v : V) : GoMap K V :=
  match m with
  | [] => [(k, v)]
  | (k', v') :: rest => if k' = k then (k, v) :: rest else (k', v') :: set rest k v

/-- Builtin `delete(m, k)`. -/
def delete (m : GoMap K V) (k : K) : GoMap K V :=
  m.filter (fun e => decide (e.1 ≠ k))

/-- Keys bound in the map. -/
def keys (m : GoMap K V) : List K := m.map Prod.fst

/-- Keys produced by `for k := range m` when the runtime visits in `order`. -/
def rangeKeys (m : GoMap K V) (order : List K) : List K :=
  order.filter (fun k => (get m k).isSome)

end GoMap

/-! ## Data model (tracker.go:19-41) -/

/-- Registry entry (tracker.go:19). -/
structure DataNode where
  IP : String
  LastSeen : Int
deriving DecidableEq, Repr

/-- Chunk record (tracker.go:24). -/
structure FileChunk where
  ChunkID : String
  NodeIP : String
  ChunkSize : Int
deriving DecidableEq, Repr

/-- Per-file metadata (tracker.go:30). -/
structure FileMetadata where
  Filename : String
  TotalSize : Int
  TotalChunks : Nat
  Chunks : List FileChunk
deriving DecidableEq, Repr

/-- The two global maps of the tracker (tracker.go:37-41). -/
structure State where
  dataNodes : GoMap String DataNode
  fileStorage : GoMap String FileMetadata
deriving DecidableEq, Repr

/-- The tracker at process start: both maps empty. -/
def State.empty : State := ⟨[], []⟩

/-- Lines written with `log.Println` / `log.Printf`. -/
inductive LogLine where
  | registered (node : String)
  | uploadFailed (node : String)
  | inactive (ip : String)
  | reReplicate (filename : String)
deriving DecidableEq, Repr

/-- What a handler sends back. `panic` is a Go runtime panic inside the
handler (index out of range). -/
inductive Response where
  | error (status : Nat) (msg : String)
  | registered (node : String)
  | uploaded (filename : String) (chunks : Nat)
  | data (body : Bytes)
  | panic
deriving DecidableEq, Repr

/-! ## The network towards the storage nodes -/

/-- The HTTP client calls made by the tracker, over a fleet state `W`. -/
structure Net (W : Type) where
  /-- The request of `uploadChunkToDataNode` (tracker.go:158-185) to
  `nodeAddress` with `filename`, `chunkID` and the chunk bytes: an error, or
  the status code of the answer; the fleet state may change. -/
  post : W → String → String → String → Bytes → Except String Nat × W
  /-- The calls `http.Get(url)` and `io.ReadAll(resp.Body)` of
  `downloadChunkFromDataNode` (tracker.go:222-228): an error, or the status
  code and the body read from the answer. -/
  fetch : W → String → Except String (Nat × Bytes)

/-- One call of `uploadChunkToDataNode`, kept as a trace of the upload. -/
structure PushCall where
  node : String
  filename : String
  chunkID : String
  data : Bytes
deriving DecidableEq, Repr

/-! ## registerDataNode (tracker.go:48-71) -/

/-- Go `strings.Replace(s, old, new, 1)` for a non-empty `old`, on the
characters of `s`: the first occurrence of `old` is replaced. -/
def replaceFirstChars (old new : List Char) : List Char → List Char
  | [] => []
  | c :: cs =>
    if old.isPrefixOf (c :: cs) then new ++ (c :: cs).drop old.length
    else c :: replaceFirstChars old new cs

/-- Go `strings.Replace(s, old, new, 1)` for a non-empty `old`. -/
def replaceFirst (s old new : String) : String :=
  String.mk (replaceFirstChars old.data new.data s.data)

/-- The registry key computed by `registerDataNode` (tracker.go:57-63). -/
def fullAddress (ip port : String) : String :=
  let ip := if ip = "::1" then "127.0.0.1" else ip
  let fullAddress := ip ++ ":" ++ port
  replaceFirst fullAddress "::1" "127.0.0.1"

/-- Handler `registerDataNode` for a caller at `ip` with query value `port`,
at clock reading `now`. -/
def registerDataNode (ip port : String) (now : Int) (st : State) :
    Response × State × List LogLine :=
  if port = "" then
    (Response.error 400 "Port is required", st, [])
  else
    let addr := fullAddress ip port
    (Response.registered addr,
      { st with dataNodes := st.dataNodes.set addr ⟨addr, now⟩ },
      [LogLine.registered addr])

/-! ## uploadFile (tracker.go:73-155) -/

/-- The chunk size of tracker.go:107. -/
def chunkSize : Nat := 30

/-- Successive non-empty results of `file.Read(buffer)` on a file whose unread
bytes are `rest`, with a buffer of `size` bytes: each read fills the buffer
from the unread bytes, the last one may be shorter, and the read after the
last byte returns `(0, io.EOF)`, which ends the loop of `uploadFile`;
`fuel` bounds the number of reads. -/
def readWindows (size : Nat) : Nat → Bytes → List Bytes
  | 0, _ => []
  | fuel + 1, rest =>
    if rest.isEmpty then [] else rest.take size :: readWindows size fuel (rest.drop size)

/-- The reads of `uploadFile` on a file holding `data`. -/
def fileReads (data : Bytes) : List Bytes :=
  readWindows chunkSize data.length data

/-- Function `uploadChunkToDataNode` (tracker.go:157-188): Go result
`(bool, error)`, the error being `none` for `nil`. -/
def uploadChunkToDataNode {W : Type} (net : Net W) (w : W)
    (nodeAddress filename chunkID : String) (chunkData : Bytes) :
    (Bool × Option String) × W :=
  match net.post w nodeAddress filename chunkID chunkData with
  | (Except.error e, w') => ((false, some e), w')
  | (Except.ok statusCode, w') => ((decide (statusCode = 200), none), w')

/-- Local variables of the read loop of `uploadFile`, with the fleet state,
the trace of push calls and the log. -/
structure UploadLoop (W : Type) where
  world : W
  fileMetadata : FileMetadata
  chunkNum : Nat
  pushes : List PushCall
  log : List LogLine

/-- Body of the read loop for one read with `bytesRead > 0`
(tracker.go:113-134). Only the error of `uploadChunkToDataNode` is looked at;
on an error the `continue` of line 124 skips the append and both increments. -/
def uploadStep {W : Type} (net : Net W) (generateChunkID : Bytes → String)
    (activeNodes : List String) (filename : String)
    (s : UploadLoop W) (chunkData : Bytes) : UploadLoop W :=
  let chunkID := generateChunkID chunkData
  let targetNode := activeNodes.getD (s.chunkNum % activeNodes.length) ""
  let r := uploadChunkToDataNode net s.world targetNode filename chunkID chunkData
  let pushes := s.pushes ++ [⟨targetNode, filename, chunkID, chunkData⟩]
  match r.1.2 with
  | some _ =>
    { s with world := r.2, pushes := pushes, log := s.log ++ [LogLine.uploadFailed targetNode] }
  | none =>
    { world := r.2
      fileMetadata :=
        { s.fileMetadata with
          Chunks := s.fileMetadata.Chunks ++ [⟨chunkID, targetNode, chunkData.length⟩]
          TotalChunks := s.fileMetadata.TotalChunks + 1 }
      chunkNum := s.chunkNum + 1
      pushes := pushes
      log := s.log }

/-- The read loop of `uploadFile` (tracker.go:111-143) over the reads of the
file. -/
def uploadLoop {W : Type} (net : Net W) (generateChunkID : Bytes → String)
    (activeNodes : List String) (filename : String)
    (reads : List Bytes) (s : UploadLoop W) : UploadLoop W :=
  reads.foldl (uploadStep net generateChunkID activeNodes filename) s

/-- Outcome of `uploadFile`. -/
structure UploadResult (W : Type) where
  response : Response
  state : State
  world : W
  pushes : List PushCall
  log : List LogLine

/-- Handler `uploadFile` for a request carrying a form file named `filename`
that holds `data` (`header.Size` is its length); `order` is the order in which
the registry is ranged over for the snapshot. The file is read without I/O
error, so the answers of tracker.go:76 and tracker.go:140 do not occur. -/
def uploadFile {W : Type} (net : Net W) (generateChunkID : Bytes → String)
    (order : List String) (filename : String) (data : Bytes) (w : W) (st : State) :
    UploadResult W :=
  let activeNodes := st.dataNodes.rangeKeys order
  if activeNodes.length = 0 then
    ⟨Response.error 503 "No active data nodes", st, w, [], []⟩
  else
    let fileMetadata : FileMetadata :=
      { Filename := filename, TotalSize := data.length, TotalChunks := 0, Chunks := [] }
    let s := uploadLoop net generateChunkID activeNodes filename (fileReads data)
      ⟨w, fileMetadata, 0, [], []⟩
    ⟨Response.uploaded filename s.fileMetadata.TotalChunks,
      { st with fileStorage := st.fileStorage.set filename s.fileMetadata },
      s.world, s.pushes, s.log⟩

/-! ## downloadFile (tracker.go:190-229) -/

/-- Function `downloadChunkFromDataNode` (tracker.go:218-229): the URL is
formatted from the three strings as they are, and the result is the body of
the answer whatever its status code, or the error of the request. -/
def downloadChunkFromDataNode {W : Type} (net : Net W) (w : W)
    (nodeAddress filename chunkID : String) : Except String Bytes :=
  let url := "http://" ++ nodeAddress ++ "/download-chunk?filename=" ++ filename
    ++ "&chunkid=" ++ chunkID
  match net.fetch w url with
  | Except.error e => Except.error e
  | Except.ok (_, body) => Except.ok body

/-- How the fetch loop of `downloadFile` ends. -/
inductive FetchLoop where
  | done (chunks : List Bytes)
  | fetchFailed
  | indexOutOfRange
deriving DecidableEq, Repr

/-- The loop `for i, chunk := range metadata.Chunks` of `downloadFile`
(tracker.go:204-211), from index `i` on, over the slice `chunks`. -/
def downloadLoop {W : Type} (net : Net W) (w : W) (filename : String) :
    Nat → List FileChunk → List Bytes → FetchLoop
  | _, [], chunks => FetchLoop.done chunks
  | i, chunk :: rest, chunks =>
    match downloadChunkFromDataNode net w chunk.NodeIP filename chunk.ChunkID with
    | Except.error _ => FetchLoop.fetchFailed
    | Except.ok chunkData =>
      if i < chunks.length then downloadLoop net w filename (i + 1) rest (chunks.set i chunkData)
      else FetchLoop.indexOutOfRange

/-- Handler `downloadFile`. -/
def downloadFile {W : Type} (net : Net W) (w : W) (st : State) (filename : String) : Response :=
  match st.fileStorage.get filename with
  | none => Response.error 404 "File not found"
  | some metadata =>
    match downloadLoop net w filename 0 metadata.Chunks (List.replicate metadata.TotalChunks []) with
    | FetchLoop.fetchFailed => Response.error 500 "Failed to retrieve chunk"
    | FetchLoop.indexOutOfRange => Response.panic
    | FetchLoop.done chunks => Response.data chunks.flatten

/-! ## heartbeatCheck and redistributeFiles (tracker.go:231-262) -/

/-- The staleness bound `5*time.Second` in nanoseconds. -/
def timeout : Int := 5000000000

/-- Body of the loop of `redistributeFiles` for one visited file name
(tracker.go:248-260). -/
def redistributeStep (deadNode : String) (acc : State × List LogLine) (filename : String) :
    State × List LogLine :=
  match acc.1.fileStorage.get filename with
  | none => acc
  | some metadata =>
    let newChunks := metadata.Chunks.filter (fun chunk => decide (chunk.NodeIP ≠ deadNode))
    let log :=
      if newChunks.length = 0 ∧ acc.1.dataNodes.length > 0 then
        acc.2 ++ [LogLine.reReplicate filename]
      else acc.2
    ({ acc.1 with
        fileStorage := acc.1.fileStorage.set filename { metadata with Chunks := newChunks } },
      log)

/-- Function `redistributeFiles`, the file table being visited in `order`. -/
def redistributeFiles (deadNode : String) (order : List String) (st : State) :
    State × List LogLine :=
  order.foldl (redistributeStep deadNode) (st, [])

/-- Body of the loop of `heartbeatCheck` for one visit (tracker.go:235-241):
`visit.1` is the address `ip` visited and `visit.2` the clock reading that
the call `time.Since(node.LastSeen)` of this iteration takes; `fileOrder ip`
is the order in which the call `redistributeFiles(ip)` visits the file
table. -/
def heartbeatStep (fileOrder : String → List String)
    (acc : State × List LogLine) (visit : String × Int) : State × List LogLine :=
  match acc.1.dataNodes.get visit.1 with
  | none => acc
  | some node =>
    if visit.2 - node.LastSeen > timeout then
      let st1 : State := { acc.1 with dataNodes := acc.1.dataNodes.delete visit.1 }
      let r := redistributeFiles visit.1 (fileOrder visit.1) st1
      (r.1, acc.2 ++ [LogLine.inactive visit.1] ++ r.2)
    else acc

/-- One tick of `heartbeatCheck` (tracker.go:234-242): the registry is
visited in the order of `visits`, each visit with its own clock reading. -/
def heartbeatCheck (visits : List (String × Int)) (fileOrder : String → List String)
    (st : State) : State × List LogLine :=
  visits.foldl (heartbeatStep fileOrder) (st, [])

/-! ## The storage node (datanode.go:34-69) and the way to it -/

/-- Go `strings.Cut(s, sep)` for a one-character separator: the text before
the first `sep` and, when there is one, the text after it. -/
def cutAt (sep : Char) : List Char → List Char × Option (List Char)
  | [] => ([], none)
  | c :: cs =>
    if c = sep then ([], some cs)
    else (c :: (cutAt sep cs).1, (cutAt sep cs).2)

/-- Go `strings.Split(s, sep)` for a one-character separator. -/
def splitOnChar (sep : Char) : List Char → List (List Char)
  | [] => [[]]
  | c :: cs =>
    if c = sep then [] :: splitOnChar sep cs
    else
      match splitOnChar sep cs with
      | [] => [[c]]
      | piece :: pieces => (c :: piece) :: pieces

/-- Value of a hexadecimal digit. -/
def unhex (c : Char) : Option Nat :=
  if 48 ≤ c.toNat ∧ c.toNat ≤ 57 then some (c.toNat - 48)
  else if 97 ≤ c.toNat ∧ c.toNat ≤ 102 then some (c.toNat - 87)
  else if 65 ≤ c.toNat ∧ c.toNat ≤ 70 then some (c.toNat - 55)
  else none

/-- Go `url.QueryUnescape`: `%XX` is the character with that code (strings
are sequences of characters here, so a code above 127 stands for the byte),
`+` is a space, a `%` not followed by two hexadecimal digits is an error. -/
def queryUnescape : List Char → Option (List Char)
  | [] => some []
  | c :: cs =>
    if c = '%' then
      match cs with
      | a :: b :: rest =>
        match unhex a, unhex b, queryUnescape rest with
        | some x, some y, some out => some (Char.ofNat (16 * x + y) :: out)
        | _, _, _ => none
      | _ => none
    else if c = '+' then (queryUnescape cs).map (fun out => Char.ofNat 32 :: out)
    else (queryUnescape cs).map (fun out => c :: out)

/-- Go `url.ParseQuery` as `Request.URL.Query()` uses it: the pieces between
`&`, each cut at its first `=` and unescaped; an empty piece, a piece holding
`;` and a piece that does not unescape are left out. -/
def parseQuery (rawQuery : List Char) : List (List Char × List Char) :=
  (splitOnChar '&' rawQuery).filterMap (fun piece =>
    if ';' ∈ piece then none
    else if piece = [] then none
    else
      match queryUnescape (cutAt '=' piece).1,
        queryUnescape ((cutAt '=' piece).2.getD []) with
      | some key, some value => some (key, value)
      | _, _ => none)

/-- Gin `c.Query(key)`: the first value of `key` in the query, or the empty
string. -/
def queryValue (rawQuery : List Char) (key : String) : String :=
  match (parseQuery rawQuery).find? (fun kv => decide (kv.1 = key.data)) with
  | some kv => String.mk kv.2
  | none => ""

/-- Chunk files of the whole fleet: the file `storage/<filename>/<chunkID>`
of the node listening at an address, keyed by (address, filename, chunkID). -/
abbrev Fleet := GoMap (String × String × String) Bytes

/-- Body of the 404 answer of `downloadChunk`, the 27 bytes of the JSON
object whose field `error` is the text `Chunk not found`. -/
def chunkNotFoundBody : Bytes :=
  [123, 34, 101, 114, 114, 111, 114, 34, 58, 34, 67, 104, 117, 110, 107, 32, 110, 111, 116, 32,
    102, 111, 117, 110, 100, 34, 125]

/-- Handler `uploadChunk` of the node at `self` (datanode.go:34-56);
`saveOK` tells whether `c.SaveUploadedFile` succeeds. -/
def uploadChunk (saveOK : Bool) (fleet : Fleet) (self filename chunkID : String)
    (chunk : Bytes) : Nat × Fleet :=
  if saveOK then (200, fleet.set (self, filename, chunkID) chunk)
  else (500, fleet)

/-- Handler `downloadChunk` of the node at `self` (datanode.go:58-69) for a
request with the query string `rawQuery`; a path that is not a stored chunk
file is answered as not found. -/
def downloadChunk (fleet : Fleet) (self : String) (rawQuery : List Char) : Nat × Bytes :=
  let filename := queryValue rawQuery "filename"
  let chunkID := queryValue rawQuery "chunkid"
  match fleet.get (self, filename, chunkID) with
  | none => (404, chunkNotFoundBody)
  | some chunk => (200, chunk)

/-- Body of the answer of the Go HTTP server to a request line it cannot
parse. -/
def badRequestBody : Bytes :=
  "400 Bad Request".data.map (fun c => UInt8.ofNat c.toNat)

/-- Body of the answer of gin for a path without route. -/
def pageNotFoundBody : Bytes :=
  "404 page not found".data.map (fun c => UInt8.ofNat c.toNat)

/-- A fleet of storage nodes behind the HTTP client: the addresses in `down`
do not answer (the request fails), the nodes in `diskFull` cannot save a
chunk, every other address runs the two handlers above. The push carries
`filename` and `chunkID` as multipart form fields, which reach `c.PostForm`
unchanged. The fetch goes the way of a Go `http.Get` to a Go server: the
fragment from the first `#` on is not sent; the client refuses a URL with a
control character before the fragment or a malformed `%` escape in it; the
query starts after the first `?` and the authority, which is not validated,
ends at the first `/`; a space in the query makes the request line unreadable
for the server, which answers 400; the query is handed to the handler as it
is. -/
def fleetNet (down diskFull : List String) : Net Fleet where
  post := fun fleet nodeAddress filename chunkID chunkData =>
    if nodeAddress ∈ down then (Except.error "connection refused", fleet)
    else
      let r := uploadChunk (decide (nodeAddress ∉ diskFull)) fleet nodeAddress filename chunkID
        chunkData
      (Except.ok r.1, r.2)
  fetch := fun fleet url =>
    let fragment := ((cutAt '#' url.data).2).getD []
    if (cutAt '#' url.data).1.any (fun c => decide (c.toNat < 32 ∨ c.toNat = 127)) then
      Except.error "net/url: invalid control character in URL"
    else if (queryUnescape fragment).isNone then
      Except.error "invalid URL escape"
    else
      let sent := (cutAt '#' url.data).1.drop 7
      let authorityPath := (cutAt '?' sent).1
      let rawQuery := ((cutAt '?' sent).2).getD []
      let host := String.mk (cutAt '/' authorityPath).1
      if host ∈ down then Except.error "connection refused"
      else if Char.ofNat 32 ∈ rawQuery then Except.ok (400, badRequestBody)
      else if (cutAt '/' authorityPath).2 ≠ some "download-chunk".data then
        Except.ok (404, pageNotFoundBody)
      else Except.ok (downloadChunk fleet host rawQuery)

/-- Lower-case hexadecimal digit of a number below 16. -/
def hexDigit (n : Nat) : Char :=
  if n < 10 then Char.ofNat (48 + n) else Char.ofNat (87 + n)

/-- A stand-in for SHA-256 in concrete runs: the bytes themselves in
hexadecimal, as `hex.EncodeToString` writes them. -/
def toyChunkID (data : Bytes) : String :=
  String.mk (data.flatMap (fun b => [hexDigit (b.toNat / 16), hexDigit (b.toNat % 16)]))

/-! ## Concrete inputs used by the examples below -/

/-- A file of `n` bytes `0, 1, 2, ...`. -/
def bytesN (n : Nat) : Bytes := (List.range n).map UInt8.ofNat

/-- Address of the first example node. -/
def nodeA : String := "10.0.0.1:6000"

/-- Address of the second example node. -/
def nodeB : String := "10.0.0.2:6000"

/-- Registry after `10.0.0.1` registered at time 0 and `10.0.0.2` four
seconds later, both with port 6000. -/
def twoNodes : State :=
  (registerDataNode "10.0.0.2" "6000" 4000000000
    (registerDataNode "10.0.0.1" "6000" 0 State.empty).2.1).2.1

/-- Upload of a 40-byte file `f` to the two example nodes, all pushes succeeding. -/
def upload40 : UploadResult Fleet :=
  uploadFile (fleetNet [] []) toyChunkID [nodeA, nodeB] "f" (bytesN 40) [] twoNodes

/-- Then upload of an empty file `g`. -/
def uploadEmpty : UploadResult Fleet :=
  uploadFile (fleetNet [] []) toyChunkID [nodeA, nodeB] "g" [] upload40.world upload40.state

/-- Then a sweep tick at 6 s: `nodeA` (last seen at 0 s) is stale, `nodeB`
(last seen at 4 s, visited a microsecond later) is not. -/
def afterSweep : State × List LogLine :=
  heartbeatCheck [(nodeA, 6000000000), (nodeB, 6000001000)] (fun _ => ["f", "g"])
    uploadEmpty.state

/-- Registry with `10.0.0.1` last seen at 0 s and `10.0.0.2` last seen at
1 s. -/
def nearBound : State :=
  (registerDataNode "10.0.0.2" "6000" 1000000000
    (registerDataNode "10.0.0.1" "6000" 0 State.empty).2.1).2.1

/-- Upload of a 40-byte file named `a&b` to the two example nodes, all pushes
succeeding. -/
def uploadAmp : UploadResult Fleet :=
  uploadFile (fleetNet [] []) toyChunkID [nodeA, nodeB] "a&b" (bytesN 40) [] twoNodes

/-! ## Auxiliary notions for the statements -/

/-- The edit `redistributeFiles` makes to one metadata value. -/
def stripped (deadNode : String) (md : FileMetadata) : FileMetadata :=
  { md with Chunks := md.Chunks.filter (fun chunk => decide (chunk.NodeIP ≠ deadNode)) }

/-- The guard of tracker.go:255 for file `g` in state `st`. -/
def Emits (d : String) (st : State) (g : String) : Prop :=
  (∃ md, st.fileStorage.get g = some md ∧ ∀ chunk ∈ md.Chunks, chunk.NodeIP = d) ∧
    st.dataNodes ≠ []

/-- The entry was seen at most `timeout` before the clock reading `now`. -/
def fresh (now : Int) (node : DataNode) : Bool := decide (now - node.LastSeen ≤ timeout)

/-- Relation between chunk records and the bodies their fetches return. -/
def Fetched {W : Type} (net : Net W) (w : W) (filename : String)
    (chunks : List FileChunk) (bodies : List Bytes) : Prop :=
  List.Forall₂ (fun chunk body =>
    downloadChunkFromDataNode net w chunk.NodeIP filename chunk.ChunkID = Except.ok body)
    chunks bodies

/-- Every stored chunk list is at most `TotalChunks` long. -/
def ChunksBounded (st : State) : Prop :=
  ∀ filename md, st.fileStorage.get filename = some md → md.Chunks.length ≤ md.TotalChunks

/-- States the tracker can be in after any sequence of registrations, uploads
and sweep ticks, starting with both maps empty. -/
inductive Reachable : State → Prop where
  | init : Reachable State.empty
  | register (ip port : String) (now : Int) (st : State) :
      Reachable st → Reachable (registerDataNode ip port now st).2.1
  | upload {W : Type} (net : Net W) (generateChunkID : Bytes → String) (order : List String)
      (filename : String) (data : Bytes) (w : W) (st : State) :
      Reachable st → Reachable (uploadFile net generateChunkID order filename data w st).state
  | sweep (visits : List (String × Int)) (fileOrder : String → List String) (st : State) :
      Reachable st → Reachable (heartbeatCheck visits fileOrder st).1

/-! ## Lemmas on Go maps -/

namespace GoMap

variable {K V : Type} [DecidableEq K]

/-- Reading a key just written gives the written value. -/
theorem get_set_self (m : GoMap K V) (k : K) (v : V) : get (set m k v) k = some v := by
  induction m with
  | nil => simp [set, get]
  | cons e rest ih =>
    obtain ⟨k', v'⟩ := e
    by_cases h : k' = k
    · simp [set, get, h]
    · simp [set, get, h, ih]

/-- A write leaves the other keys as they were. -/
theorem get_set_other (m : GoMap K V) (k k' : K) (v : V) (h : k' ≠ k) :
    get (set m k v) k' = get m k' := by
  induction m with
  | nil => simp [set, get, Ne.symm h]
  | cons e rest ih =>
    obtain ⟨k0, v0⟩ := e
    by_cases h0 : k0 = k
    · subst h0
      simp [set, get, Ne.symm h]
    · by_cases h1 : k0 = k'
      · subst h1
        simp [set, get, h0]
      · simp [set, get, h0, h1, ih]

/-- A deleted key is unbound. -/
theorem get_delete_self (m : GoMap K V) (k : K) : get (delete m k) k = none := by
  induction m with
  | nil => simp [delete, get]
  | cons e rest ih =>
    obtain ⟨k0, v0⟩ := e
    by_cases h0 : k0 = k
    · simpa [delete, List.filter_cons, h0] using ih
    · simpa [delete, List.filter_cons, h0, get] using ih

/-- A delete leaves the other keys as they were. -/
theorem get_delete_other (m : GoMap K V) (k k' : K) (h : k' ≠ k) :
    get (delete m k) k' = get m k' := by
  induction m with
  | nil => simp [delete, get]
  | cons e rest ih =>
    obtain ⟨k0, v0⟩ := e
    by_cases h0 : k0 = k
    · subst h0
      simpa [delete, List.filter_cons, get, Ne.symm h] using ih
    · by_cases h1 : k0 = k'
      · subst h1
        simp [delete, List.filter_cons, get, h0]
      · simpa [delete, List.filter_cons, get, h0, h1] using ih

/-- A key is bound exactly when it is among the keys. -/
theorem get_isSome_iff_mem_keys (m : GoMap K V) (k : K) : (get m k).isSome ↔ k ∈ keys m := by
  induction m with
  | nil => simp [get, keys]
  | cons e rest ih =>
    obtain ⟨k0, v0⟩ := e
    by_cases h0 : k0 = k
    · simp [get, keys, h0]
    · have h1 : ¬ k = k0 := fun h => h0 h.symm
      simpa [get, keys, h0, h1] using ih

/-- A key is unbound exactly when it is not among the keys. -/
theorem get_eq_none_iff (m : GoMap K V) (k : K) : get m k = none ↔ k ∉ keys m := by
  rw [← get_isSome_iff_mem_keys]
  cases get m k <;> simp

/-- Overwriting a bound key keeps the list of keys. -/
theorem keys_set_of_get (m : GoMap K V) (k : K) (v v0 : V) (h : get m k = some v0) :
    keys (set m k v) = keys m := by
  induction m with
  | nil => simp [get] at h
  | cons e rest ih =>
    obtain ⟨k0, v1⟩ := e
    by_cases h0 : k0 = k
    · simp [set, keys, h0]
    · simp only [get, h0, if_false] at h
      have := ih h
      simp only [keys] at this
      simp [set, keys, h0, this]

/-- Ranging over an empty map produces no key. -/
theorem rangeKeys_nil_map (order : List K) : rangeKeys ([] : GoMap K V) order = [] := by
  simp [rangeKeys, get]

/-- Ranging in an order that permutes the keys produces that order. -/
theorem rangeKeys_of_perm (m : GoMap K V) (order : List K) (h : order.Perm (keys m)) :
    rangeKeys m order = order := by
  unfold rangeKeys
  rw [List.filter_eq_self]
  intro k hk
  exact (get_isSome_iff_mem_keys m k).2 (h.mem_iff.1 hk)

end GoMap

/-! ## The sweep and the download loop -/

theorem stripped_stripped (d : String) (md : FileMetadata) :
    stripped d (stripped d md) = stripped d md := by
  simp [stripped, List.filter_filter]

/-- One step of `redistributeFiles` does not touch the registry. -/
theorem redistributeStep_dataNodes (d : String) (acc : State × List LogLine) (f : String) :
    (redistributeStep d acc f).1.dataNodes = acc.1.dataNodes := by
  unfold redistributeStep
  cases acc.1.fileStorage.get f <;> rfl

/-- One step of `redistributeFiles` filters the visited file and no other. -/
theorem redistributeStep_get (d : String) (acc : State × List LogLine) (f g : String) :
    (redistributeStep d acc f).1.fileStorage.get g =
      if g = f then (acc.1.fileStorage.get g).map (stripped d) else acc.1.fileStorage.get g := by
  unfold redistributeStep
  by_cases hg : g = f
  · subst hg
    cases h : acc.1.fileStorage.get g with
    | none => simp [h]
    | some md => simp [GoMap.get_set_self, stripped]
  · cases h : acc.1.fileStorage.get f with
    | none => simp [hg]
    | some md => simp [hg, GoMap.get_set_other _ _ _ _ hg]

/-- One step of `redistributeFiles` keeps the file names. -/
theorem redistributeStep_keys (d : String) (acc : State × List LogLine) (f : String) :
    GoMap.keys (redistributeStep d acc f).1.fileStorage = GoMap.keys acc.1.fileStorage := by
  unfold redistributeStep
  cases h : acc.1.fileStorage.get f with
  | none => rfl
  | some md => exact GoMap.keys_set_of_get _ _ _ _ h

/-- The loop of `redistributeFiles` does not touch the registry. -/
theorem redistributeFold_dataNodes (d : String) (order : List String) (acc : State × List LogLine) :
    (order.foldl (redistributeStep d) acc).1.dataNodes = acc.1.dataNodes := by
  induction order generalizing acc with
  | nil => rfl
  | cons f rest ih => rw [List.foldl_cons, ih, redistributeStep_dataNodes]

/-- The loop of `redistributeFiles` keeps the file names. -/
theorem redistributeFold_keys (d : String) (order : List String) (acc : State × List LogLine) :
    GoMap.keys (order.foldl (redistributeStep d) acc).1.fileStorage
      = GoMap.keys acc.1.fileStorage := by
  induction order generalizing acc with
  | nil => rfl
  | cons f rest ih => rw [List.foldl_cons, ih, redistributeStep_keys]

/-- The loop of `redistributeFiles` filters exactly the visited files. -/
theorem redistributeFold_get (d : String) (order : List String) (acc : State × List LogLine)
    (g : String) :
    (order.foldl (redistributeStep d) acc).1.fileStorage.get g =
      if g ∈ order then (acc.1.fileStorage.get g).map (stripped d)
      else acc.1.fileStorage.get g := by
  induction order generalizing acc with
  | nil => simp
  | cons f rest ih =>
    rw [List.foldl_cons, ih, redistributeStep_get]
    by_cases hg : g = f
    · subst hg
      by_cases hr : g ∈ rest
      · cases acc.1.fileStorage.get g <;> simp [hr, stripped_stripped]
      · simp [hr]
    · simp [hg]

/-- The filtered chunk list is empty exactly when every record points at the dead node. -/
theorem filter_eq_nil_iff_all (d : String) (chunks : List FileChunk) :
    (chunks.filter (fun chunk => decide (chunk.NodeIP ≠ d))).length = 0 ↔
      ∀ chunk ∈ chunks, chunk.NodeIP = d := by
  simp [List.filter_eq_nil_iff]

/-- The line for a file is in the log after one step when it was there before or the step visits that file under the guard. -/
theorem redistributeStep_log (d : String) (acc : State × List LogLine) (f g : String) :
    LogLine.reReplicate g ∈ (redistributeStep d acc f).2 ↔
      LogLine.reReplicate g ∈ acc.2 ∨ (g = f ∧ Emits d acc.1 g) := by
  unfold redistributeStep Emits
  cases h : acc.1.fileStorage.get f with
  | none =>
    simp only
    constructor
    · exact Or.inl
    · rintro (h1 | ⟨rfl, ⟨md, hmd, _⟩, _⟩)
      · exact h1
      · rw [h] at hmd; cases hmd
  | some md =>
    simp only [filter_eq_nil_iff_all]
    by_cases hc : (∀ chunk ∈ md.Chunks, chunk.NodeIP = d) ∧ acc.1.dataNodes.length > 0
    · rw [if_pos hc]
      simp only [List.mem_append, List.mem_singleton, LogLine.reReplicate.injEq]
      constructor
      · rintro (h1 | rfl)
        · exact Or.inl h1
        · exact Or.inr ⟨rfl, ⟨md, h, hc.1⟩, List.ne_nil_of_length_pos hc.2⟩
      · rintro (h1 | ⟨rfl, _⟩)
        · exact Or.inl h1
        · exact Or.inr rfl
    · rw [if_neg hc]
      constructor
      · exact Or.inl
      · rintro (h1 | ⟨rfl, ⟨md1, hmd1, hall⟩, hne⟩)
        · exact h1
        · rw [h] at hmd1
          cases hmd1
          exact absurd ⟨hall, List.length_pos.2 hne⟩ hc

/-- The guard for a file is not changed by a step of the loop. -/
theorem redistributeStep_emits (d : String) (acc : State × List LogLine) (f g : String) :
    Emits d (redistributeStep d acc f).1 g ↔ Emits d acc.1 g := by
  unfold Emits
  rw [redistributeStep_dataNodes, redistributeStep_get]
  by_cases hg : g = f
  · subst hg
    cases h : acc.1.fileStorage.get g with
    | none => simp
    | some md =>
      simp only [if_true, Option.map_some', Option.some.injEq, exists_eq_left']
      simp [stripped]
  · simp [hg]

/-- The line for a file is in the log after the loop when it was there before or the file is visited under the guard. -/
theorem redistributeFold_log (d : String) (order : List String) (acc : State × List LogLine)
    (g : String) :
    LogLine.reReplicate g ∈ (order.foldl (redistributeStep d) acc).2 ↔
      LogLine.reReplicate g ∈ acc.2 ∨ (g ∈ order ∧ Emits d acc.1 g) := by
  induction order generalizing acc with
  | nil => simp
  | cons f rest ih =>
    rw [List.foldl_cons, ih, redistributeStep_log, redistributeStep_emits]
    simp only [List.mem_cons]
    tauto

/-- One step of the sweep unbinds the visited address when it is stale at the
reading of the visit and changes no other binding. -/
theorem heartbeatStep_get (fo : String → List String)
    (acc : State × List LogLine) (visit : String × Int) (k : String) :
    (heartbeatStep fo acc visit).1.dataNodes.get k =
      if k = visit.1 then (acc.1.dataNodes.get k).filter (fresh visit.2)
      else acc.1.dataNodes.get k := by
  obtain ⟨ip, t⟩ := visit
  unfold heartbeatStep
  cases h : acc.1.dataNodes.get ip with
  | none =>
    by_cases hk : k = ip
    · subst hk; simp [h]
    · simp [hk]
  | some node =>
    by_cases hs : t - node.LastSeen > timeout
    · simp only [hs, if_true]
      unfold redistributeFiles
      rw [redistributeFold_dataNodes]
      by_cases hk : k = ip
      · subst hk
        have : fresh t node = false := by simp [fresh]; omega
        simp [GoMap.get_delete_self, h, Option.filter, this]
      · simp [hk, GoMap.get_delete_other _ _ _ hk]
    · simp only [hs, if_false]
      by_cases hk : k = ip
      · subst hk
        have : fresh t node = true := by simp [fresh]; omega
        simp [h, Option.filter, this]
      · simp [hk]

/-- When every address is visited at most once, the loop of the sweep keeps
a visited binding exactly when it is fresh at the reading of its visit, and
keeps every binding that is not visited. -/
theorem heartbeatFold_get (fo : String → List String) (visits : List (String × Int))
    (hnodup : (visits.map Prod.fst).Nodup) :
    ∀ (acc : State × List LogLine) (k : String),
      (visits.foldl (heartbeatStep fo) acc).1.dataNodes.get k =
        match GoMap.get visits k with
        | some t => (acc.1.dataNodes.get k).filter (fresh t)
        | none => acc.1.dataNodes.get k := by
  induction visits with
  | nil => intro acc k; simp [GoMap.get]
  | cons v rest ih =>
    obtain ⟨ip, t⟩ := v
    simp only [List.map_cons, List.nodup_cons] at hnodup
    intro acc k
    rw [List.foldl_cons, ih hnodup.2, heartbeatStep_get]
    by_cases hk : k = ip
    · subst hk
      have hnone : GoMap.get rest k = none :=
        (GoMap.get_eq_none_iff rest k).2 hnodup.1
      simp [GoMap.get, hnone]
    · have hk' : ¬ ip = k := fun h => hk h.symm
      simp [GoMap.get, hk, hk']

/-- In a list of visits without repeated address, a visit is found under its
address. -/
theorem get_of_mem_visits (visits : List (String × Int))
    (hnodup : (visits.map Prod.fst).Nodup) (ip : String) (t : Int)
    (h : (ip, t) ∈ visits) : GoMap.get visits ip = some t := by
  induction visits with
  | nil => simp at h
  | cons v rest ih =>
    obtain ⟨ip0, t0⟩ := v
    simp only [List.map_cons, List.nodup_cons] at hnodup
    simp only [List.mem_cons, Prod.mk.injEq] at h
    rcases h with ⟨rfl, rfl⟩ | h
    · simp [GoMap.get]
    · have hne : ¬ ip0 = ip := by
        intro heq
        subst heq
        exact hnodup.1 (List.mem_map.2 ⟨(ip0, t), h, rfl⟩)
      simp only [GoMap.get, hne, if_false]
      exact ih hnodup.2 h

/-- A reading found under an address is the reading of a visit of it. -/
theorem mem_visits_of_get (visits : List (String × Int)) (ip : String) (t : Int)
    (h : GoMap.get visits ip = some t) : (ip, t) ∈ visits := by
  induction visits with
  | nil => simp [GoMap.get] at h
  | cons v rest ih =>
    obtain ⟨ip0, t0⟩ := v
    by_cases h0 : ip0 = ip
    · simp only [GoMap.get, h0, if_true, Option.some.injEq] at h
      simp [h0, h]
    · simp only [GoMap.get, h0, if_false] at h
      exact List.mem_cons_of_mem _ (ih h)

/-- When every fetch succeeds the fetch loop overwrites the slots from `i` on with the fetched bodies. -/
theorem downloadLoop_done {W : Type} (net : Net W) (w : W) (filename : String)
    (chunks : List FileChunk) (bodies : List Bytes) (h : Fetched net w filename chunks bodies) :
    ∀ (i : Nat) (pre mid post : List Bytes), pre.length = i → mid.length = chunks.length →
      downloadLoop net w filename i chunks (pre ++ mid ++ post)
        = FetchLoop.done (pre ++ bodies ++ post) := by
  unfold Fetched at h
  induction h with
  | nil =>
    intro i pre mid post _ hmid
    have : mid = [] := List.length_eq_zero.1 hmid
    subst this
    simp [downloadLoop]
  | @cons chunk body rest bodies hb _ ih =>
    intro i pre mid post hpre hmid
    cases mid with
    | nil => simp at hmid
    | cons m mid' =>
      have hlt : i < (pre ++ m :: mid' ++ post).length := by
        simp only [List.length_append, List.length_cons]
        omega
      have hset : (pre ++ m :: mid' ++ post).set i body = (pre ++ [body]) ++ mid' ++ post := by
        subst hpre
        simp [List.set_append]
      simp only [downloadLoop, hb, hlt, if_true, hset]
      rw [ih (i + 1) (pre ++ [body]) mid' post (by simp [hpre]) (by simpa using hmid)]
      simp

/-- Within bounds, the fetch loop fails on a failing fetch, or every fetch has a body. -/
theorem downloadLoop_cases {W : Type} (net : Net W) (w : W) (filename : String)
    (chunks : List FileChunk) :
    ∀ (i : Nat) (arr : List Bytes), i + chunks.length ≤ arr.length →
      (downloadLoop net w filename i chunks arr = FetchLoop.fetchFailed ∧
        ∃ chunk ∈ chunks, ∃ e,
          downloadChunkFromDataNode net w chunk.NodeIP filename chunk.ChunkID = Except.error e) ∨
      ∃ bodies, Fetched net w filename chunks bodies := by
  induction chunks with
  | nil => intro i arr _; exact Or.inr ⟨[], List.Forall₂.nil⟩
  | cons chunk rest ih =>
    intro i arr hlen
    cases hf : downloadChunkFromDataNode net w chunk.NodeIP filename chunk.ChunkID with
    | error e =>
      left
      exact ⟨by simp [downloadLoop, hf], chunk, List.mem_cons_self _ _, e, hf⟩
    | ok body =>
      have hlt : i < arr.length := by simp only [List.length_cons] at hlen; omega
      rcases ih (i + 1) (arr.set i body) (by simp only [List.length_cons] at hlen; simp; omega)
        with ⟨h, c, hc, e, he⟩ | ⟨bodies, hb⟩
      · left
        exact ⟨by simp [downloadLoop, hf, hlt, h], c, List.mem_cons_of_mem _ hc, e, he⟩
      · right; exact ⟨body :: bodies, List.Forall₂.cons hf hb⟩

/-- The fetch loop stays within the slice when the slice has room for the remaining records. -/
theorem downloadLoop_in_bounds {W : Type} (net : Net W) (w : W) (filename : String)
    (chunks : List FileChunk) :
    ∀ (i : Nat) (arr : List Bytes), i + chunks.length ≤ arr.length →
      downloadLoop net w filename i chunks arr ≠ FetchLoop.indexOutOfRange := by
  induction chunks with
  | nil => intro i arr _; simp [downloadLoop]
  | cons chunk rest ih =>
    intro i arr hlen
    cases hf : downloadChunkFromDataNode net w chunk.NodeIP filename chunk.ChunkID with
    | error e => simp [downloadLoop, hf]
    | ok body =>
      have hlt : i < arr.length := by simp only [List.length_cons] at hlen; omega
      simp only [downloadLoop, hf, hlt, if_true]
      exact ih (i + 1) (arr.set i body) (by simp only [List.length_cons] at hlen; simp; omega)

/-! ## The upload loop -/

theorem readWindows_flatten (size : Nat) (hsize : 0 < size) :
    ∀ (fuel : Nat) (rest : Bytes), rest.length ≤ fuel →
      (readWindows size fuel rest).flatten = rest := by
  intro fuel
  induction fuel with
  | zero =>
    intro rest h
    have : rest = [] := List.length_eq_zero.1 (Nat.le_zero.1 h)
    simp [readWindows, this]
  | succ n ih =>
    intro rest h
    cases rest with
    | nil => simp [readWindows]
    | cons b bs =>
      have hd : ((b :: bs).drop size).length ≤ n := by
        simp only [List.length_drop, List.length_cons] at h ⊢
        omega
      simp only [readWindows, List.isEmpty_cons, Bool.false_eq_true, if_false, List.flatten_cons,
        ih _ hd]
      exact List.take_append_drop size (b :: bs)

/-- The reads of a file, concatenated, are the file. -/
theorem fileReads_flatten (data : Bytes) : (fileReads data).flatten = data :=
  readWindows_flatten chunkSize (by decide) data.length data (Nat.le_refl _)

/-- One loop step keeps `len(Chunks) = TotalChunks = chunkNum`. -/
theorem uploadStep_counts {W : Type} (net : Net W) (gen : Bytes → String)
    (active : List String) (filename : String) (s : UploadLoop W) (d : Bytes)
    (h : s.fileMetadata.Chunks.length = s.fileMetadata.TotalChunks ∧
      s.chunkNum = s.fileMetadata.TotalChunks) :
    (uploadStep net gen active filename s d).fileMetadata.Chunks.length
        = (uploadStep net gen active filename s d).fileMetadata.TotalChunks ∧
      (uploadStep net gen active filename s d).chunkNum
        = (uploadStep net gen active filename s d).fileMetadata.TotalChunks := by
  unfold uploadStep
  simp only
  split
  · exact h
  · simp [h.1, h.2]

/-- The read loop keeps `len(Chunks) = TotalChunks = chunkNum`. -/
theorem uploadLoop_counts {W : Type} (net : Net W) (gen : Bytes → String)
    (active : List String) (filename : String) (reads : List Bytes) :
    ∀ s : UploadLoop W,
      s.fileMetadata.Chunks.length = s.fileMetadata.TotalChunks ∧
        s.chunkNum = s.fileMetadata.TotalChunks →
      (uploadLoop net gen active filename reads s).fileMetadata.Chunks.length
          = (uploadLoop net gen active filename reads s).fileMetadata.TotalChunks ∧
        (uploadLoop net gen active filename reads s).chunkNum
          = (uploadLoop net gen active filename reads s).fileMetadata.TotalChunks := by
  induction reads with
  | nil => intro s h; exact h
  | cons d rest ih =>
    intro s h
    simp only [uploadLoop, List.foldl_cons]
    exact ih _ (uploadStep_counts net gen active filename s d h)

/-- An upload leaves the state alone or installs metadata with `len(Chunks) = TotalChunks`. -/
theorem uploadFile_state {W : Type} (net : Net W) (gen : Bytes → String) (order : List String)
    (filename : String) (data : Bytes) (w : W) (st : State) :
    (uploadFile net gen order filename data w st).state = st ∨
    ∃ md, md.Chunks.length = md.TotalChunks ∧
      (uploadFile net gen order filename data w st).state
        = { st with fileStorage := st.fileStorage.set filename md } := by
  unfold uploadFile
  simp only
  split
  · exact Or.inl rfl
  · right
    exact ⟨_, (uploadLoop_counts net gen _ filename _ _ ⟨rfl, rfl⟩).1, rfl⟩

/-- Installing bounded metadata keeps the bound. -/
theorem chunksBounded_set (st : State) (filename : String) (md : FileMetadata)
    (h : ChunksBounded st) (hmd : md.Chunks.length ≤ md.TotalChunks) :
    ChunksBounded { st with fileStorage := st.fileStorage.set filename md } := by
  intro g md' hg
  by_cases hgf : g = filename
  · subst hgf
    simp only [GoMap.get_set_self, Option.some.injEq] at hg
    subst hg
    exact hmd
  · simp only [GoMap.get_set_other _ _ _ _ hgf] at hg
    exact h g md' hg

/-- One step of `redistributeFiles` keeps the bound. -/
theorem chunksBounded_redistributeStep (d : String) (acc : State × List LogLine) (f : String)
    (h : ChunksBounded acc.1) : ChunksBounded (redistributeStep d acc f).1 := by
  intro g md' hg
  rw [redistributeStep_get] at hg
  by_cases hgf : g = f
  · simp only [hgf, if_true] at hg
    cases h0 : acc.1.fileStorage.get f with
    | none => simp [h0] at hg
    | some md0 =>
      simp only [h0, Option.map_some', Option.some.injEq] at hg
      subst hg
      have := h f md0 h0
      simp only [stripped]
      exact le_trans (List.length_filter_le _ _) this
  · simp only [hgf, if_false] at hg
    exact h g md' hg

/-- The loop of `redistributeFiles` keeps the bound. -/
theorem chunksBounded_redistributeFold (d : String) (order : List String) :
    ∀ acc : State × List LogLine, ChunksBounded acc.1 →
      ChunksBounded (order.foldl (redistributeStep d) acc).1 := by
  induction order with
  | nil => intro acc h; exact h
  | cons f rest ih =>
    intro acc h
    exact ih _ (chunksBounded_redistributeStep d acc f h)

/-- One step of the sweep keeps the bound. -/
theorem chunksBounded_heartbeatStep (fo : String → List String)
    (acc : State × List LogLine) (visit : String × Int) (h : ChunksBounded acc.1) :
    ChunksBounded (heartbeatStep fo acc visit).1 := by
  unfold heartbeatStep
  split
  · exact h
  · split
    · exact chunksBounded_redistributeFold visit.1 (fo visit.1) _ h
    · exact h

/-- The loop of the sweep keeps the bound. -/
theorem chunksBounded_heartbeatFold (fo : String → List String)
    (visits : List (String × Int)) :
    ∀ acc : State × List LogLine, ChunksBounded acc.1 →
      ChunksBounded (visits.foldl (heartbeatStep fo) acc).1 := by
  induction visits with
  | nil => intro acc h; exact h
  | cons visit rest ih =>
    intro acc h
    exact ih _ (chunksBounded_heartbeatStep fo acc visit h)

/-- Every reachable state is bounded. -/
theorem chunksBounded_of_reachable (st : State) (h : Reachable st) : ChunksBounded st := by
  induction h with
  | init => intro f md hf; simp [State.empty, GoMap.get] at hf
  | register ip port now st _ ih =>
    unfold registerDataNode
    split
    · exact ih
    · exact ih
  | upload net gen order filename data w st _ ih =>
    rcases uploadFile_state net gen order filename data w st with h | ⟨md, hmd, h⟩
    · rw [h]; exact ih
    · rw [h]; exact chunksBounded_set st filename md ih (le_of_eq hmd)
  | sweep visits fo st _ ih =>
    exact chunksBounded_heartbeatFold fo visits (st, []) ih

/-- In a bounded state `downloadFile` does not index out of range. -/
theorem downloadFile_no_panic {W : Type} (net : Net W) (w : W) (st : State) (filename : String)
    (h : ChunksBounded st) : downloadFile net w st filename ≠ Response.panic := by
  unfold downloadFile
  cases hmd : st.fileStorage.get filename with
  | none => simp
  | some md =>
    have hb := downloadLoop_in_bounds net w filename md.Chunks 0
      (List.replicate md.TotalChunks []) (by simpa using h filename md hmd)
    simp only
    split
    · simp
    · rename_i heq; exact absurd heq hb
    · simp

/-- When every body has the length its record states, the concatenation has
the sum of the recorded sizes as length. -/
theorem flatten_length_of_sizes (chunks : List FileChunk) (bodies : List Bytes)
    (h : List.Forall₂ (fun chunk body => (List.length body : Int) = chunk.ChunkSize)
      chunks bodies) :
    (bodies.flatten.length : Int) = (chunks.map FileChunk.ChunkSize).sum := by
  induction h with
  | nil => simp
  | cons h1 _ ih =>
    simp only [List.flatten_cons, List.length_append, Nat.cast_add, List.map_cons,
      List.sum_cons, ih, h1]

/-- Every read of a file holds between 1 and `chunkSize` bytes. -/
theorem readWindows_length (size : Nat) :
    ∀ (fuel : Nat) (rest : Bytes), ∀ c ∈ readWindows size fuel rest,
      c.length ≤ size ∧ (0 < size → 0 < c.length) := by
  intro fuel
  induction fuel with
  | zero => intro rest c hc; simp [readWindows] at hc
  | succ n ih =>
    intro rest c hc
    cases rest with
    | nil => simp [readWindows] at hc
    | cons b bs =>
      simp only [readWindows, List.isEmpty_cons, Bool.false_eq_true, if_false,
        List.mem_cons] at hc
      rcases hc with rfl | hc
      · refine ⟨by simp, fun hs => ?_⟩
        simp only [List.length_take, List.length_cons]
        omega
      · exact ih _ c hc

/-- With a non-empty snapshot an upload installs metadata with `len(Chunks) = TotalChunks` under the file name. -/
theorem uploadFile_installs {W : Type} (net : Net W) (gen : Bytes → String)
    (order : List String) (filename : String) (data : Bytes) (w : W) (st : State)
    (h : st.dataNodes.rangeKeys order ≠ []) :
    ∃ md, md.Chunks.length = md.TotalChunks ∧
      (uploadFile net gen order filename data w st).state
        = { st with fileStorage := st.fileStorage.set filename md } := by
  have hne : (st.dataNodes.rangeKeys order).length ≠ 0 := by
    simpa using h
  unfold uploadFile
  simp only [hne, if_false]
  exact ⟨_, (uploadLoop_counts net gen _ filename _ _ ⟨rfl, rfl⟩).1, rfl⟩

/-! ## The claims -/

/-- Claim C1, the code at the failing input: a 40-byte file named `a&b` is
uploaded to the two example nodes. Both pushes are answered 200 and the nodes
hold the two chunks under (`a&b`, chunk id); asked for that name and id in a
well-formed query, the node returns the pushed bytes. The URL that
`downloadChunkFromDataNode` formats holds the name as it is, so the node reads
the name `a`, answers not found, and `downloadFile` answers the two not-found
bodies instead of the file. A name with a space gets the file back no better.
For the name `f` the same upload and download return the file, here with 0,
30 and 70 bytes. -/
theorem download_url_breaks_roundtrip :
    uploadAmp.response = Response.uploaded "a&b" 2 ∧
    uploadAmp.pushes.map PushCall.node = [nodeA, nodeB] ∧
    uploadAmp.world =
      [((nodeA, "a&b", toyChunkID ((bytesN 40).take 30)), (bytesN 40).take 30),
        ((nodeB, "a&b", toyChunkID ((bytesN 40).drop 30)), (bytesN 40).drop 30)] ∧
    downloadChunk uploadAmp.world nodeA
        ("filename=a%26b&chunkid=" ++ toyChunkID ((bytesN 40).take 30)).data
      = (200, (bytesN 40).take 30) ∧
    (downloadChunkFromDataNode (fleetNet [] []) uploadAmp.world nodeA "a&b"
        (toyChunkID ((bytesN 40).take 30))).toOption = some chunkNotFoundBody ∧
    downloadFile (fleetNet [] []) uploadAmp.world uploadAmp.state "a&b"
      = Response.data (chunkNotFoundBody ++ chunkNotFoundBody) ∧
    downloadFile (fleetNet [] []) uploadAmp.world uploadAmp.state "a&b"
      ≠ Response.data (bytesN 40) ∧
    downloadFile (fleetNet [] [])
        (uploadFile (fleetNet [] []) toyChunkID [nodeA, nodeB] "a b" (bytesN 40) []
          twoNodes).world
        (uploadFile (fleetNet [] []) toyChunkID [nodeA, nodeB] "a b" (bytesN 40) []
          twoNodes).state "a b"
      ≠ Response.data (bytesN 40) ∧
    downloadFile (fleetNet [] [])
        (uploadFile (fleetNet [] []) toyChunkID [nodeA, nodeB] "f" (bytesN 70) []
          twoNodes).world
        (uploadFile (fleetNet [] []) toyChunkID [nodeA, nodeB] "f" (bytesN 70) []
          twoNodes).state "f"
      = Response.data (bytesN 70) ∧
    downloadFile (fleetNet [] [])
        (uploadFile (fleetNet [] []) toyChunkID [nodeA, nodeB] "f" (bytesN 30) []
          twoNodes).world
        (uploadFile (fleetNet [] []) toyChunkID [nodeA, nodeB] "f" (bytesN 30) []
          twoNodes).state "f"
      = Response.data (bytesN 30) ∧
    downloadFile (fleetNet [] [])
        (uploadFile (fleetNet [] []) toyChunkID [nodeA, nodeB] "f" [] [] twoNodes).world
        (uploadFile (fleetNet [] []) toyChunkID [nodeA, nodeB] "f" [] [] twoNodes).state "f"
      = Response.data [] := by
  decide

/-- Claim C2, the code at the failing input: snapshot `[nodeA, nodeB]`,
`nodeA` not answering, a 31-byte file (two chunks). The push of chunk 0 goes
to `nodeA` and fails; the push of chunk 1 goes to `nodeA` again, not to
`nodeB`, the entry at index `1 mod 2` of the snapshot, and no chunk is
recorded. When both nodes answer, the chunks of a 70-byte file go to `nodeA`,
`nodeB`, `nodeA`. -/
theorem failed_push_keeps_round_robin_slot :
    (uploadFile (fleetNet [nodeA] []) toyChunkID [nodeA, nodeB] "f" (bytesN 31) []
        twoNodes).pushes.map PushCall.node = [nodeA, nodeA] ∧
    (uploadFile (fleetNet [nodeA] []) toyChunkID [nodeA, nodeB] "f" (bytesN 31) []
        twoNodes).pushes.map PushCall.data = [(bytesN 31).take 30, (bytesN 31).drop 30] ∧
    (uploadFile (fleetNet [nodeA] []) toyChunkID [nodeA, nodeB] "f" (bytesN 31) []
        twoNodes).response = Response.uploaded "f" 0 ∧
    [nodeA, nodeB].getD (1 % [nodeA, nodeB].length) "" = nodeB ∧
    nodeA ≠ nodeB ∧
    (uploadFile (fleetNet [] []) toyChunkID [nodeA, nodeB] "f" (bytesN 70) []
        twoNodes).pushes.map PushCall.node = [nodeA, nodeB, nodeA] := by
  decide

/-- Claim C3, as amended: for a stored file whose chunk list is not longer
than `TotalChunks`, `downloadFile` either answers the error 500 (and then the
request for one of the recorded chunks failed), or answers the concatenation,
in metadata order, of the bodies fetched for the chunk records the file has at
that moment. The length of the answer is the sum of the lengths of these
bodies; it is `TotalSize` when the recorded chunk sizes add up to `TotalSize`
and every body has the size its record states. `downloadFile` itself never
looks at `TotalSize`. -/
theorem downloadFile_concatenates_fetched_bodies {W : Type} (net : Net W) (w : W) (st : State)
    (filename : String) (md : FileMetadata) (hmd : st.fileStorage.get filename = some md)
    (hlen : md.Chunks.length ≤ md.TotalChunks) :
    (downloadFile net w st filename = Response.error 500 "Failed to retrieve chunk" ∧
      ∃ chunk ∈ md.Chunks, ∃ e,
        downloadChunkFromDataNode net w chunk.NodeIP filename chunk.ChunkID = Except.error e) ∨
    ∃ bodies, Fetched net w filename md.Chunks bodies ∧
      downloadFile net w st filename = Response.data bodies.flatten ∧
      bodies.flatten.length = (bodies.map List.length).sum ∧
      ((md.Chunks.map FileChunk.ChunkSize).sum = md.TotalSize →
        List.Forall₂ (fun chunk body => (List.length body : Int) = chunk.ChunkSize)
          md.Chunks bodies →
        (bodies.flatten.length : Int) = md.TotalSize) := by
  unfold downloadFile
  rw [hmd]
  rcases downloadLoop_cases net w filename md.Chunks 0 (List.replicate md.TotalChunks [])
    (by simpa using hlen) with ⟨h, hfail⟩ | ⟨bodies, hb⟩
  · left; exact ⟨by simp [h], hfail⟩
  · right
    refine ⟨bodies, hb, ?_, List.length_flatten _,
      fun hsum hsizes => by rw [flatten_length_of_sizes _ _ hsizes, hsum]⟩
    have hsplit : List.replicate md.TotalChunks ([] : Bytes) =
        [] ++ List.replicate md.Chunks.length [] ++
          List.replicate (md.TotalChunks - md.Chunks.length) [] := by
      rw [List.nil_append, List.append_replicate_replicate]
      congr 1
      omega
    have hdone := downloadLoop_done net w filename md.Chunks bodies hb 0 []
      (List.replicate md.Chunks.length []) (List.replicate (md.TotalChunks - md.Chunks.length) [])
      rfl (by simp)
    rw [← hsplit] at hdone
    simp only [hdone]
    simp

/-- Witness of `downloadFile_concatenates_fetched_bodies`: the file `f` after
the sweep that evicted `nodeA`. -/
theorem downloadFile_concatenates_fetched_bodies_witness :
    afterSweep.1.fileStorage.get "f"
        = some ⟨"f", 40, 2, [⟨toyChunkID ((bytesN 40).drop 30), nodeB, 10⟩]⟩ ∧
    ((downloadFile (fleetNet [] []) uploadEmpty.world afterSweep.1 "f"
        = Response.error 500 "Failed to retrieve chunk" ∧
      ∃ chunk ∈ [(⟨toyChunkID ((bytesN 40).drop 30), nodeB, 10⟩ : FileChunk)], ∃ e,
        downloadChunkFromDataNode (fleetNet [] []) uploadEmpty.world chunk.NodeIP "f"
          chunk.ChunkID = Except.error e) ∨
    ∃ bodies, Fetched (fleetNet [] []) uploadEmpty.world "f"
        [⟨toyChunkID ((bytesN 40).drop 30), nodeB, 10⟩] bodies ∧
      downloadFile (fleetNet [] []) uploadEmpty.world afterSweep.1 "f"
        = Response.data bodies.flatten ∧
      bodies.flatten.length = (bodies.map List.length).sum ∧
      ((([⟨toyChunkID ((bytesN 40).drop 30), nodeB, 10⟩] : List FileChunk).map
          FileChunk.ChunkSize).sum = (40 : Int) →
        List.Forall₂ (fun chunk body => (List.length body : Int) = chunk.ChunkSize)
          [(⟨toyChunkID ((bytesN 40).drop 30), nodeB, 10⟩ : FileChunk)] bodies →
        (bodies.flatten.length : Int) = (40 : Int))) :=
  ⟨by decide,
    downloadFile_concatenates_fetched_bodies (fleetNet [] []) uploadEmpty.world afterSweep.1 "f"
      ⟨"f", 40, 2, [⟨toyChunkID ((bytesN 40).drop 30), nodeB, 10⟩]⟩ (by decide) (by decide)⟩

/-- Claim C3, counterexample: after the sweep evicted `nodeA`, the download of
`f` (recorded `TotalSize` 40) succeeds with the 10 bytes of the remaining
chunk; and when the nodes no longer hold the chunks, the download of `f`
succeeds with the two 27-byte not-found answers, 54 bytes. -/
theorem download_length_differs_from_TotalSize :
    (afterSweep.1.fileStorage.get "f").map FileMetadata.TotalSize = some 40 ∧
    downloadFile (fleetNet [] []) uploadEmpty.world afterSweep.1 "f"
      = Response.data ((bytesN 40).drop 30) ∧
    ((bytesN 40).drop 30).length = 10 ∧
    (upload40.state.fileStorage.get "f").map FileMetadata.TotalSize = some 40 ∧
    downloadFile (fleetNet [] []) [] upload40.state "f"
      = Response.data (chunkNotFoundBody ++ chunkNotFoundBody) ∧
    (chunkNotFoundBody ++ chunkNotFoundBody).length = 54 := by
  decide

/-- Claim C4, the code at the failing input: `nodeA` answers 500 to the push
(it cannot save the chunk), so `uploadChunkToDataNode` returns `(false, nil)`;
`uploadFile` still records the chunk and answers one chunk stored. -/
theorem rejected_push_is_recorded :
    (uploadChunkToDataNode (fleetNet [] [nodeA]) [] nodeA "f" (toyChunkID (bytesN 10))
        (bytesN 10)).1 = (false, none) ∧
    (uploadFile (fleetNet [] [nodeA]) toyChunkID [nodeA, nodeB] "f" (bytesN 10) []
        twoNodes).state.fileStorage.get "f"
      = some ⟨"f", 10, 1, [⟨toyChunkID (bytesN 10), nodeA, 10⟩]⟩ ∧
    (uploadFile (fleetNet [] [nodeA]) toyChunkID [nodeA, nodeB] "f" (bytesN 10) []
        twoNodes).response = Response.uploaded "f" 1 ∧
    (uploadFile (fleetNet [] [nodeA]) toyChunkID [nodeA, nodeB] "f" (bytesN 10) []
        twoNodes).world = [] := by
  decide

/-- Claim C5, as amended: after one tick of `heartbeatCheck` that visits every
registry entry once, in whatever order, an entry is still bound exactly when
the clock reading taken at its visit minus its `LastSeen` is at most
`timeout`, and then it is unchanged; no other address becomes bound. When all
the readings of the tick are one value `now`, the registry holds exactly the
entries with `now - LastSeen ≤ timeout`, whatever the order. -/
theorem heartbeatCheck_evicts_by_visit_reading (visits : List (String × Int))
    (fileOrder : String → List String) (st : State)
    (hnodup : (GoMap.keys st.dataNodes).Nodup)
    (hvisits : (visits.map Prod.fst).Perm (GoMap.keys st.dataNodes)) :
    (∀ ip t, (ip, t) ∈ visits →
      (heartbeatCheck visits fileOrder st).1.dataNodes.get ip =
        match st.dataNodes.get ip with
        | some node => if t - node.LastSeen ≤ timeout then some node else none
        | none => none) ∧
    (∀ ip, st.dataNodes.get ip = none →
      (heartbeatCheck visits fileOrder st).1.dataNodes.get ip = none) ∧
    (∀ now : Int, (∀ v ∈ visits, v.2 = now) → ∀ ip,
      (heartbeatCheck visits fileOrder st).1.dataNodes.get ip =
        match st.dataNodes.get ip with
        | some node => if now - node.LastSeen ≤ timeout then some node else none
        | none => none) := by
  have hn : (visits.map Prod.fst).Nodup := hvisits.nodup_iff.2 hnodup
  have hvisited : ∀ ip t, (ip, t) ∈ visits →
      (heartbeatCheck visits fileOrder st).1.dataNodes.get ip =
        match st.dataNodes.get ip with
        | some node => if t - node.LastSeen ≤ timeout then some node else none
        | none => none := by
    intro ip t hmem
    unfold heartbeatCheck
    rw [heartbeatFold_get fileOrder visits hn, get_of_mem_visits visits hn ip t hmem]
    cases h : st.dataNodes.get ip with
    | none => simp
    | some node => simp [Option.filter, fresh]
  have hunbound : ∀ ip, st.dataNodes.get ip = none →
      (heartbeatCheck visits fileOrder st).1.dataNodes.get ip = none := by
    intro ip hnone
    unfold heartbeatCheck
    rw [heartbeatFold_get fileOrder visits hn]
    cases GoMap.get visits ip with
    | none => exact hnone
    | some t => simp [hnone]
  refine ⟨hvisited, hunbound, ?_⟩
  intro now hnow ip
  cases hget : GoMap.get visits ip with
  | some t =>
    have hmem := mem_visits_of_get visits ip t hget
    have ht : t = now := hnow (ip, t) hmem
    rw [← ht]
    exact hvisited ip t hmem
  | none =>
    have hk : ip ∉ GoMap.keys st.dataNodes := by
      intro hk
      have : ip ∈ GoMap.keys visits := hvisits.mem_iff.2 hk
      exact (GoMap.get_eq_none_iff visits ip).1 hget this
    have hnone : st.dataNodes.get ip = none := (GoMap.get_eq_none_iff _ _).2 hk
    rw [hunbound ip hnone, hnone]

/-- Witness of `heartbeatCheck_evicts_by_visit_reading`: the tick on the two
example nodes that visits `nodeB` at 6 s and `nodeA` a microsecond later. -/
theorem heartbeatCheck_evicts_by_visit_reading_witness :
    (GoMap.keys twoNodes.dataNodes).Nodup ∧
    (([(nodeB, 6000000000), (nodeA, 6000001000)] : List (String × Int)).map Prod.fst).Perm
      (GoMap.keys twoNodes.dataNodes) ∧
    ((∀ ip t, (ip, t) ∈ ([(nodeB, 6000000000), (nodeA, 6000001000)] : List (String × Int)) →
      (heartbeatCheck [(nodeB, 6000000000), (nodeA, 6000001000)] (fun _ => [])
          twoNodes).1.dataNodes.get ip =
        match twoNodes.dataNodes.get ip with
        | some node => if t - node.LastSeen ≤ timeout then some node else none
        | none => none) ∧
    (∀ ip, twoNodes.dataNodes.get ip = none →
      (heartbeatCheck [(nodeB, 6000000000), (nodeA, 6000001000)] (fun _ => [])
          twoNodes).1.dataNodes.get ip = none) ∧
    (∀ now : Int,
      (∀ v ∈ ([(nodeB, 6000000000), (nodeA, 6000001000)] : List (String × Int)), v.2 = now) →
      ∀ ip,
      (heartbeatCheck [(nodeB, 6000000000), (nodeA, 6000001000)] (fun _ => [])
          twoNodes).1.dataNodes.get ip =
        match twoNodes.dataNodes.get ip with
        | some node => if now - node.LastSeen ≤ timeout then some node else none
        | none => none)) :=
  ⟨by decide, by decide,
    heartbeatCheck_evicts_by_visit_reading [(nodeB, 6000000000), (nodeA, 6000001000)]
      (fun _ => []) twoNodes (by decide) (by decide)⟩

/-- Claim C5, counterexample: `nodeA` was last seen at 0 s and `nodeB` at 1 s;
a tick takes its first reading at 6 s and its second a microsecond later. At
6 s the gap of `nodeB` is exactly 5 s, within the bound. Visiting `nodeA`
first, `nodeB` is read a microsecond past the bound and evicted, and the
registry ends empty; visiting `nodeB` first, it is kept. -/
theorem sweep_outcome_depends_on_visit_order :
    nearBound.dataNodes = [(nodeA, ⟨nodeA, 0⟩), (nodeB, ⟨nodeB, 1000000000⟩)] ∧
    (6000000000 : Int) - 1000000000 ≤ timeout ∧
    GoMap.keys (heartbeatCheck [(nodeA, 6000000000), (nodeB, 6000001000)] (fun _ => [])
      nearBound).1.dataNodes = [] ∧
    GoMap.keys (heartbeatCheck [(nodeB, 6000000000), (nodeA, 6000001000)] (fun _ => [])
      nearBound).1.dataNodes = [nodeB] := by
  decide

/-- Claim C6: after `redistributeFiles deadNode`, whatever the order in which
the file table is visited, every file name is bound to its previous metadata
with the same `Filename`, `TotalSize` and `TotalChunks` and with the chunk list
filtered to the records whose `NodeIP` is not `deadNode` (the others dropped,
the rest unchanged and in order); no record of any file points at `deadNode`,
the file names are the same and the registry is untouched. -/
theorem redistributeFiles_filters_chunks (deadNode : String) (order : List String) (st : State)
    (horder : order.Perm (GoMap.keys st.fileStorage)) :
    (∀ filename,
      (redistributeFiles deadNode order st).1.fileStorage.get filename =
        (st.fileStorage.get filename).map (fun md =>
          { Filename := md.Filename, TotalSize := md.TotalSize, TotalChunks := md.TotalChunks,
            Chunks := md.Chunks.filter (fun chunk => decide (chunk.NodeIP ≠ deadNode)) })) ∧
    (∀ filename md, (redistributeFiles deadNode order st).1.fileStorage.get filename = some md →
      ∀ chunk ∈ md.Chunks, chunk.NodeIP ≠ deadNode) ∧
    GoMap.keys (redistributeFiles deadNode order st).1.fileStorage = GoMap.keys st.fileStorage ∧
    (redistributeFiles deadNode order st).1.dataNodes = st.dataNodes := by
  have hget : ∀ filename, (redistributeFiles deadNode order st).1.fileStorage.get filename =
      (st.fileStorage.get filename).map (stripped deadNode) := by
    intro filename
    unfold redistributeFiles
    rw [redistributeFold_get]
    by_cases hm : filename ∈ order
    · simp [hm]
    · have : st.fileStorage.get filename = none :=
        (GoMap.get_eq_none_iff _ _).2 (fun hk => hm (horder.mem_iff.2 hk))
      simp [hm, this]
  refine ⟨fun filename => by rw [hget]; rfl, ?_, ?_, ?_⟩
  · intro filename md hmd chunk hc
    rw [hget] at hmd
    cases h0 : st.fileStorage.get filename with
    | none => simp [h0] at hmd
    | some md0 =>
      simp only [h0, Option.map_some', Option.some.injEq] at hmd
      subst hmd
      simp only [stripped, List.mem_filter, decide_eq_true_eq] at hc
      exact hc.2
  · exact redistributeFold_keys deadNode order (st, [])
  · exact redistributeFold_dataNodes deadNode order (st, [])

/-- Witness of `redistributeFiles_filters_chunks`: the files `f` and `g` of
the example, `nodeA` being the dead node. -/
theorem redistributeFiles_filters_chunks_witness :
    ["g", "f"].Perm (GoMap.keys uploadEmpty.state.fileStorage) ∧
    ((∀ filename,
      (redistributeFiles nodeA ["g", "f"] uploadEmpty.state).1.fileStorage.get filename =
        (uploadEmpty.state.fileStorage.get filename).map (fun md =>
          { Filename := md.Filename, TotalSize := md.TotalSize, TotalChunks := md.TotalChunks,
            Chunks := md.Chunks.filter (fun chunk => decide (chunk.NodeIP ≠ nodeA)) })) ∧
    (∀ filename md,
      (redistributeFiles nodeA ["g", "f"] uploadEmpty.state).1.fileStorage.get filename
        = some md →
      ∀ chunk ∈ md.Chunks, chunk.NodeIP ≠ nodeA) ∧
    GoMap.keys (redistributeFiles nodeA ["g", "f"] uploadEmpty.state).1.fileStorage
      = GoMap.keys uploadEmpty.state.fileStorage ∧
    (redistributeFiles nodeA ["g", "f"] uploadEmpty.state).1.dataNodes
      = uploadEmpty.state.dataNodes) :=
  ⟨by decide, redistributeFiles_filters_chunks nodeA ["g", "f"] uploadEmpty.state (by decide)⟩

/-- Claim C7: with an empty registry `uploadFile` answers 503 "No active data
nodes", makes no push, leaves the storage fleet as it was and leaves the
tracker state (registry and metadata table) unchanged. -/
theorem uploadFile_empty_registry_rejected {W : Type} (net : Net W)
    (generateChunkID : Bytes → String) (order : List String) (filename : String)
    (data : Bytes) (w : W) (st : State) (h : st.dataNodes = []) :
    (uploadFile net generateChunkID order filename data w st).response
      = Response.error 503 "No active data nodes" ∧
    (uploadFile net generateChunkID order filename data w st).pushes = [] ∧
    (uploadFile net generateChunkID order filename data w st).world = w ∧
    (uploadFile net generateChunkID order filename data w st).state = st := by
  unfold uploadFile
  rw [h]
  simp [GoMap.rangeKeys_nil_map]

/-- Witness of `uploadFile_empty_registry_rejected`: the registry is empty
and the file table already holds `f`; a new upload of `f` changes nothing. -/
theorem uploadFile_empty_registry_rejected_witness :
    (State.mk [] upload40.state.fileStorage).dataNodes = [] ∧
    (uploadFile (fleetNet [] []) toyChunkID [nodeA] "f" (bytesN 5) upload40.world
        (State.mk [] upload40.state.fileStorage)).response
      = Response.error 503 "No active data nodes" ∧
    (uploadFile (fleetNet [] []) toyChunkID [nodeA] "f" (bytesN 5) upload40.world
        (State.mk [] upload40.state.fileStorage)).pushes = [] ∧
    (uploadFile (fleetNet [] []) toyChunkID [nodeA] "f" (bytesN 5) upload40.world
        (State.mk [] upload40.state.fileStorage)).world = upload40.world ∧
    (uploadFile (fleetNet [] []) toyChunkID [nodeA] "f" (bytesN 5) upload40.world
        (State.mk [] upload40.state.fileStorage)).state
      = State.mk [] upload40.state.fileStorage :=
  ⟨rfl, uploadFile_empty_registry_rejected (fleetNet [] []) toyChunkID [nodeA] "f" (bytesN 5)
    upload40.world (State.mk [] upload40.state.fileStorage) rfl⟩

/-- Claim C8, as amended: during `redistributeFiles deadNode`, run in the
state `st` the sweep has after deleting `deadNode` from the registry and
whatever the order in which the file table is visited, the line "Need to
re-replicate file" is logged for a file exactly when the file is stored, every
chunk record it has (possibly none) points at `deadNode`, so that no record is
left, and the registry is not empty. -/
theorem reReplicate_logged_iff_no_chunk_left (deadNode : String) (order : List String) (st : State)
    (filename : String) (horder : order.Perm (GoMap.keys st.fileStorage)) :
    LogLine.reReplicate filename ∈ (redistributeFiles deadNode order st).2 ↔
      (∃ md, st.fileStorage.get filename = some md ∧
        ∀ chunk ∈ md.Chunks, chunk.NodeIP = deadNode) ∧ st.dataNodes ≠ [] := by
  unfold redistributeFiles
  rw [redistributeFold_log]
  simp only [List.not_mem_nil, false_or]
  constructor
  · exact fun h => h.2
  · intro h
    refine ⟨?_, h⟩
    obtain ⟨⟨md, hmd, _⟩, _⟩ := h
    apply horder.mem_iff.2
    apply (GoMap.get_isSome_iff_mem_keys _ _).1
    simp [hmd]

/-- Witness of `reReplicate_logged_iff_no_chunk_left`: the file `g` of the
example once `nodeA` is deleted from the registry. -/
theorem reReplicate_logged_iff_no_chunk_left_witness :
    ["f", "g"].Perm (GoMap.keys uploadEmpty.state.fileStorage) ∧
    (LogLine.reReplicate "g" ∈
        (redistributeFiles nodeA ["f", "g"]
          (State.mk (uploadEmpty.state.dataNodes.delete nodeA)
            uploadEmpty.state.fileStorage)).2 ↔
      (∃ md, (State.mk (uploadEmpty.state.dataNodes.delete nodeA)
            uploadEmpty.state.fileStorage).fileStorage.get "g" = some md ∧
        ∀ chunk ∈ md.Chunks, chunk.NodeIP = nodeA) ∧
      (State.mk (uploadEmpty.state.dataNodes.delete nodeA)
            uploadEmpty.state.fileStorage).dataNodes ≠ []) :=
  ⟨by decide,
    reReplicate_logged_iff_no_chunk_left nodeA ["f", "g"]
      (State.mk (uploadEmpty.state.dataNodes.delete nodeA) uploadEmpty.state.fileStorage)
      "g" (by decide)⟩

/-- Claim C8, counterexample: in the sweep tick that evicts `nodeA` while
`nodeB` stays registered, the file `f` loses its chunk record on `nodeA` and
keeps the one on `nodeB`, and no line is logged for `f`; the file `g` has no
chunk record at all, loses none, and the line is logged for `g`. -/
theorem reReplicate_signal_mismatch :
    (uploadEmpty.state.fileStorage.get "f").map (fun md => md.Chunks.map FileChunk.NodeIP)
      = some [nodeA, nodeB] ∧
    (afterSweep.1.fileStorage.get "f").map (fun md => md.Chunks.map FileChunk.NodeIP)
      = some [nodeB] ∧
    (uploadEmpty.state.fileStorage.get "g").map FileMetadata.Chunks = some [] ∧
    GoMap.keys afterSweep.1.dataNodes = [nodeB] ∧
    afterSweep.2 = [LogLine.inactive nodeA, LogLine.reReplicate "g"] ∧
    LogLine.reReplicate "f" ∉ afterSweep.2 ∧
    LogLine.reReplicate "g" ∈ afterSweep.2 := by
  decide

/-- Claim C9, the code at the failing input: for the caller address
`2001:db8::1` with port `6000` the registry key is `2001:db8127.0.0.1:6000`,
not `2001:db8::1:6000`: the replacement of tracker.go:63 rewrites the `::1`
inside the address. -/
theorem fullAddress_rewrites_inside_address :
    fullAddress "2001:db8::1" "6000" = "2001:db8127.0.0.1:6000" ∧
    fullAddress "2001:db8::1" "6000" ≠ "2001:db8::1" ++ ":" ++ "6000" ∧
    fullAddress "::1" "6000" = "127.0.0.1:6000" ∧
    fullAddress "10.0.0.1" "6000" = "10.0.0.1:6000" ∧
    GoMap.keys (registerDataNode "2001:db8::1" "6000" 0 State.empty).2.1.dataNodes
      = ["2001:db8127.0.0.1:6000"] := by
  decide

/-- Claim C10: in every state reachable from the empty tracker by
registrations, uploads (whatever the storage nodes answer) and sweep ticks,
every stored metadata has at most `TotalChunks` chunk records, so that
`downloadFile` never indexes its slice out of range; and the metadata an
upload installs has exactly `TotalChunks` chunk records. -/
theorem reachable_chunks_within_TotalChunks (st : State) (h : Reachable st) :
    (∀ filename md, st.fileStorage.get filename = some md →
      md.Chunks.length ≤ md.TotalChunks) ∧
    (∀ (W : Type) (net : Net W) (w : W) (filename : String),
      downloadFile net w st filename ≠ Response.panic) ∧
    (∀ (W : Type) (net : Net W) (generateChunkID : Bytes → String) (order : List String)
        (filename : String) (data : Bytes) (w : W),
      st.dataNodes.rangeKeys order ≠ [] →
      ∃ md, (uploadFile net generateChunkID order filename data w st).state.fileStorage.get
          filename = some md ∧ md.Chunks.length = md.TotalChunks) := by
  refine ⟨chunksBounded_of_reachable st h, ?_, ?_⟩
  · intro W net w filename
    exact downloadFile_no_panic net w st filename (chunksBounded_of_reachable st h)
  · intro W net gen order filename data w hne
    obtain ⟨md, hmd, hst⟩ := uploadFile_installs net gen order filename data w st hne
    exact ⟨md, by rw [hst]; exact GoMap.get_set_self _ _ _, hmd⟩

/-- Witness of `reachable_chunks_within_TotalChunks`: the state after two
registrations, two uploads and a sweep tick. -/
theorem reachable_chunks_within_TotalChunks_witness :
    Reachable afterSweep.1 ∧
    ((∀ filename md, afterSweep.1.fileStorage.get filename = some md →
      md.Chunks.length ≤ md.TotalChunks) ∧
    (∀ (W : Type) (net : Net W) (w : W) (filename : String),
      downloadFile net w afterSweep.1 filename ≠ Response.panic) ∧
    (∀ (W : Type) (net : Net W) (generateChunkID : Bytes → String) (order : List String)
        (filename : String) (data : Bytes) (w : W),
      afterSweep.1.dataNodes.rangeKeys order ≠ [] →
      ∃ md, (uploadFile net generateChunkID order filename data w
          afterSweep.1).state.fileStorage.get filename = some md ∧
        md.Chunks.length = md.TotalChunks)) :=
  ⟨Reachable.sweep _ _ _ (Reachable.upload _ _ _ _ _ _ _ (Reachable.upload _ _ _ _ _ _ _
      (Reachable.register _ _ _ _ (Reachable.register _ _ _ _ Reachable.init)))),
    reachable_chunks_within_TotalChunks afterSweep.1
      (Reachable.sweep _ _ _ (Reachable.upload _ _ _ _ _ _ _ (Reachable.upload _ _ _ _ _ _ _
        (Reachable.register _ _ _ _ (Reachable.register _ _ _ _ Reachable.init))))) ⟩

end Tracker
